import Mathlib

/-!
Verification of the browser-side analysis-session controller
(`src/frontend/app.js`, with a near-duplicate variant in `src/unnamed/part_000`).

The embedding models the session state (`currentFile`, `currentSelection`,
`functionCache`), the three operations `handleFileUpload`, `selectFunction`
and `fetchExplanation`, the list renderer `renderAnalysis`, and the Markdown
post-processing of explanation text (the `<h3>`-card wrapping and the
HIGH/MEDIUM/LOW risk-token wrapping) as pure Lean functions.

Modelling conventions:
* Network interaction is modelled by passing the outcome of the single
  `fetch` of an operation as an explicit argument (`AnalyzeOutcome`,
  `ExplainOutcome`); each operation also returns the list of network
  requests it issued.
* The Markdown converter (`marked.parse`) is an external collaborator; the
  operations are parametrised over it as `md : String → String`.
  `marked.parse` throws on a non-string argument, so an absent
  `explanation` field sends `fetchExplanation` into its catch block.
* The JS object `functionCache` is modelled as `String → Option String`;
  a key that is absent and a key holding `undefined` are collapsed to
  `none` (the program only ever reads single keys, never enumerates, so
  the two are observationally equal).
* JS truthiness on strings (`if (functionCache[k])`, `data.source_code ||`)
  is modelled explicitly: the empty string is falsy.
* String-rewriting steps (`String.prototype.replace` with the global
  literal/alternation regexes of lines 138-147 of `app.js`) are modelled
  over `List Char` by left-to-right scans that never rescan replacement
  text, exactly like the JS global replace.
-/

/-- Risk classification of one function (`risk_score` in the `/analyze`
response). -/
structure RiskScore where
  risk_level : String
  risk_reason : String
deriving Repr, DecidableEq

/-- One Function record of the `/analyze` response. -/
structure Func where
  name : String
  line_number : Int
  parameter_count : Int
  risk_score : RiskScore
deriving Repr, DecidableEq

/-- The uploaded file (opaque content plus a name). -/
structure UploadedFile where
  name : String
  content : String
deriving Repr, DecidableEq

/-- The session: the mutable module-level variables of `app.js`
(`currentFile`, `currentSelection`, `functionCache`, lines 13-15). -/
structure SessionState where
  currentFile : Option UploadedFile
  currentSelection : Option Func
  functionCache : String → Option String

/-- One rendered entry of the analysis side panel: its `innerHTML` string and
the Function record bound to its click handler (line 83 of `app.js`). -/
structure FuncItem where
  itemHtml : String
  onClickFunc : Func
deriving Repr, DecidableEq

/-- The contents of the `analysis-content` element: either a raw `innerHTML`
assignment (empty state, error state) or the list of appended child items. -/
inductive AnalysisPanel where
  | rawHtml (s : String)
  | items (xs : List FuncItem)
deriving Repr, DecidableEq

/-- The DOM pieces the controller writes to, beyond the session itself. -/
structure World where
  session : SessionState
  fileTreeHtml : String
  fileNameDisplay : String
  codeContent : String
  analysisContent : AnalysisPanel
  geminiContent : String
  btnAskLabel : String
  btnAskDisabled : Bool
  geminiHidden : Bool

/-- A network request issued by the controller. -/
inductive NetworkCall where
  | analyze (file : UploadedFile)
  | explain (functionName : String) (file : UploadedFile)
deriving Repr, DecidableEq

/-- Body of an `/analyze` response: either the body fails to parse as JSON
(`response.json()` throws, carrying the engine message) or it parses,
with the optional `functions` and `source_code` fields. -/
inductive AnalyzeBody where
  | malformed (msg : String)
  | parsed (functions : Option (List Func)) (source_code : Option String)

/-- Outcome of the `/analyze` fetch: the fetch itself throws (network
failure, carrying the engine message), or a response with a status. -/
inductive AnalyzeOutcome where
  | networkError (msg : String)
  | response (status : Nat) (body : AnalyzeBody)

/-- Body of an `/explain` response: unparsable JSON, or a parsed object
whose `explanation` field is a string or absent. -/
inductive ExplainBody where
  | malformed
  | parsed (explanation : Option String)

/-- Outcome of the `/explain` fetch. -/
inductive ExplainOutcome where
  | networkError
  | response (status : Nat) (body : ExplainBody)

/-- Embedding of `response.ok`: status in the 2xx range. -/
def okStatus (st : Nat) : Bool := 200 ≤ st && st < 300

/-- JS `a || b` for an optional string `a`: the empty string is falsy. -/
def jsOr (v : Option String) (d : String) : String :=
  match v with
  | some s => if s.isEmpty then d else s
  | none => d

/-- JS truthiness of a cache read `functionCache[k]`: a missing (or
`undefined`) entry and the empty string are falsy. -/
def cacheHit (cache : String → Option String) (k : String) : Option String :=
  match cache k with
  | some s => if s.isEmpty then none else some s
  | none => none

/-- Empty-state markup of `renderAnalysis` (lines 66-67 of `app.js`). -/
def noFunctionsHtml : String := "<div class=\"empty-state\">No functions found.</div>"

/-- Loading markup written by `handleFileUpload` (line 34). -/
def analyzingHtml : String := "<div class=\"empty-state\">Analyzing...</div>"

/-- Error markup written by the catch block of `handleFileUpload`
(line 58), around the message of the thrown error. -/
def analysisErrorHtml (msg : String) : String :=
  "<div class=\"empty-state\" style=\"color:#ff8f8f\">Error: " ++ msg ++ "</div>"

/-- Prompt shown on selecting a function with no cached explanation
(lines 105-106). -/
def promptHtml : String :=
  "Click the button to generate an AI explanation for this function."

/-- Working indicator written by `fetchExplanation` (lines 117-118). -/
def workingHtml : String := "<div class=\"empty-state\">Gemini is analyzing...</div>"

/-- Error markup written by the catch block of `fetchExplanation`
(lines 152-153). -/
def explainErrorHtml : String := "<div class=\"empty-state\">Error fetching explanation.</div>"

/-- The `innerHTML` template of one function item (lines 75-81 of `app.js`):
the service-supplied name, risk level and risk reason are interpolated
verbatim, with no escaping. -/
def funcItemHtml (f : Func) : String :=
  "\n            <div class=\"func-header\">\n                <span class=\"func-name\">"
    ++ f.name
    ++ "</span>\n                <span class=\"badge " ++ f.risk_score.risk_level
    ++ "\">" ++ f.risk_score.risk_level
    ++ "</span>\n            </div>\n            <div class=\"func-reason\">"
    ++ f.risk_score.risk_reason ++ "</div>\n        "

/-- One appended child of the analysis panel. -/
def mkFuncItem (f : Func) : FuncItem := ⟨funcItemHtml f, f⟩

/-- Embedding of `renderAnalysis(functions)` (lines 62-86): empty-state markup when the
`functions` field is absent or an empty array, otherwise one child appended
per record, in iteration order (`forEach` + `appendChild`). -/
def renderAnalysis (functions : Option (List Func)) : AnalysisPanel :=
  match functions with
  | none => .rawHtml noFunctionsHtml
  | some fs =>
    if fs.length = 0 then .rawHtml noFunctionsHtml
    else .items (fs.foldl (fun acc f => acc ++ [mkFuncItem f]) [])

/-- The selectable entries a panel presents: the appended function items
(the raw empty/error states contain none). -/
def selectableEntries : AnalysisPanel → List FuncItem
  | .rawHtml _ => []
  | .items xs => xs

/-- Embedding of `handleFileUpload(file)` (lines 26-60): stores the file, resets the
cache to a fresh empty object, writes the loading UI, hides the explanation
panel, posts the file to `/analyze` and renders the outcome.  The
`currentSelection` variable is not touched. -/
def handleFileUpload (w : World) (file : UploadedFile) (o : AnalyzeOutcome) :
    World × List NetworkCall :=
  let w1 : World :=
    { w with
      session :=
        { currentFile := some file
          currentSelection := w.session.currentSelection
          functionCache := fun _ => none }
      fileTreeHtml := "<div class=\"file-item active\">📄 " ++ file.name ++ "</div>"
      fileNameDisplay := file.name
      codeContent := "Loading code..."
      analysisContent := .rawHtml analyzingHtml
      geminiHidden := true }
  let calls := [NetworkCall.analyze file]
  match o with
  | .networkError msg =>
      ({ w1 with codeContent := "Error loading file."
                 analysisContent := .rawHtml (analysisErrorHtml msg) }, calls)
  | .response st body =>
    if okStatus st then
      match body with
      | .malformed msg =>
          ({ w1 with codeContent := "Error loading file."
                     analysisContent := .rawHtml (analysisErrorHtml msg) }, calls)
      | .parsed fns src =>
          ({ w1 with codeContent := jsOr src "# No source code returned"
                     analysisContent := renderAnalysis fns }, calls)
    else
      ({ w1 with codeContent := "Error loading file."
                 analysisContent := .rawHtml (analysisErrorHtml "Analysis failed") }, calls)

/-- Embedding of `selectFunction(element, funcData)` (lines 88-109): records the
selection, shows the explanation panel, and either renders the cached
explanation through the Markdown converter (`marked.parse`, the `md`
parameter) or renders the prompt.  No fetch occurs. -/
def selectFunction (md : String → String) (w : World) (funcData : Func) :
    World × List NetworkCall :=
  let w1 : World :=
    { w with
      session := { w.session with currentSelection := some funcData }
      geminiHidden := false }
  match cacheHit w1.session.functionCache funcData.name with
  | some s => ({ w1 with geminiContent := md s, btnAskLabel := "Explain Again" }, [])
  | none => ({ w1 with geminiContent := promptHtml, btnAskLabel := "Explain Function" }, [])

/-- Literal pattern of the first replace of the post-processing step:
`<h3>` (line 139 of `app.js`). -/
def h3Tag : List Char := "<h3>".toList

/-- The three-character stem `<h3`; a section with no occurrence of this
stem contains no `<h3>` tag and cannot start one. -/
def h3Stem : List Char := "<h3".toList

/-- Replacement text of the first replace (line 140). -/
def cardRep : List Char := "</div><div class=\"expl-card\"><h3>".toList

/-- Opening markup of one explanation card. -/
def cardOpen : List Char := "<div class=\"expl-card\"><h3>".toList

/-- The closing tag handled by lines 142-143. -/
def closeDiv : List Char := "</div>".toList

/-- Embedding of `s.replace(pat, rep)` with a global literal-text regex: one left-to-right scan,
replacing non-overlapping occurrences, never rescanning replacement text. -/
def replaceAll (pat rep : List Char) : List Char → List Char
  | [] => []
  | c :: rest =>
    if pat.isPrefixOf (c :: rest) && !pat.isEmpty then
      rep ++ replaceAll pat rep (rest.drop (pat.length - 1))
    else
      c :: replaceAll pat rep rest
termination_by l => l.length
decreasing_by
  · simp only [List.length_drop, List.length_cons]; omega
  · simp

/-- The token `HIGH`. -/
def hiTok : List Char := "HIGH".toList

/-- The token `MEDIUM`. -/
def meTok : List Char := "MEDIUM".toList

/-- The token `LOW`. -/
def loTok : List Char := "LOW".toList

/-- Replacement for one matched risk token: `<span class="risk-text $1">$1</span>`. -/
def riskSpan (tok : List Char) : List Char :=
  "<span class=\"risk-text ".toList ++ tok ++ "\">".toList ++ tok ++ "</span>".toList

/-- Embedding of the risk-token replace of lines 144-147
(`htmlContent.replace` with the alternation regex): a left-to-right scan trying the alternatives in order at
each position. -/
def wrapRisk : List Char → List Char
  | [] => []
  | c :: rest =>
    if hiTok.isPrefixOf (c :: rest) then riskSpan hiTok ++ wrapRisk (rest.drop 3)
    else if meTok.isPrefixOf (c :: rest) then riskSpan meTok ++ wrapRisk (rest.drop 5)
    else if loTok.isPrefixOf (c :: rest) then riskSpan loTok ++ wrapRisk (rest.drop 2)
    else c :: wrapRisk rest
termination_by l => l.length
decreasing_by
  all_goals simp only [List.length_drop, List.length_cons]; omega

/-- The Markdown post-processing of `fetchExplanation` (lines 133-147),
applied to the HTML output of the converter: wrap each `<h3>` heading into an
`expl-card` block, drop the stray leading `</div>` (anchored regex of line
142), close the last block, then wrap the risk tokens. -/
def postProcessExplanation (html : List Char) : List Char :=
  let h1 := replaceAll h3Tag cardRep html
  let h2 := if closeDiv.isPrefixOf h1 then h1.drop 6 else h1
  wrapRisk (h2 ++ closeDiv)

/-- String-level wrapper of the post-processing step. -/
def postProcessStr (s : String) : String :=
  (postProcessExplanation s.toList).asString

/-- Embedding of `fetchExplanation()` (lines 111-157): a defensive no-op without a file
and a selection; otherwise posts the file to `/explain` with the selected
name as query parameter.  The response status is never inspected: whenever
the body parses as JSON, `data.explanation` is written into the cache; a
string explanation is then converted and rendered (label `Explain Again`),
while a missing explanation makes the converter throw, landing in the
catch block (error markup, label `Try Again`).  A fetch or parse error
reaches the catch block before the cache write. -/
def fetchExplanation (md : String → String) (w : World) (o : ExplainOutcome) :
    World × List NetworkCall :=
  match w.session.currentFile, w.session.currentSelection with
  | some file, some sel =>
    let calls := [NetworkCall.explain sel.name file]
    match o with
    | .networkError =>
        ({ w with geminiContent := explainErrorHtml
                  btnAskLabel := "Try Again"
                  btnAskDisabled := false }, calls)
    | .response _ .malformed =>
        ({ w with geminiContent := explainErrorHtml
                  btnAskLabel := "Try Again"
                  btnAskDisabled := false }, calls)
    | .response _ (.parsed expl) =>
      let session' : SessionState :=
        { w.session with
          functionCache := fun k => if k = sel.name then expl else w.session.functionCache k }
      match expl with
      | some t =>
          ({ w with session := session'
                    geminiContent := postProcessStr (md t)
                    btnAskLabel := "Explain Again"
                    btnAskDisabled := false }, calls)
      | none =>
          ({ w with session := session'
                    geminiContent := explainErrorHtml
                    btnAskLabel := "Try Again"
                    btnAskDisabled := false }, calls)
  | _, _ => (w, [])

/-- Does `pat` occur (as a contiguous sublist) starting at some position of
`s`?  Used to state that a section of converter output contains no `<h3`
stem. -/
def occursIn (pat : List Char) : List Char → Bool
  | [] => pat.isPrefixOf []
  | c :: rest => pat.isPrefixOf (c :: rest) || occursIn pat rest

/-- A converter output that starts with a level-3 heading and consists of
the given sections, each introduced by its `<h3>` tag: the shape required
by the section-boundary property. -/
def joinSections : List (List Char) → List Char
  | [] => []
  | s :: rest => h3Tag ++ s ++ joinSections rest

/-- The section-boundary reading of the spec: each heading starts one
visually distinct `expl-card` block that groups the heading with all
content up to the next heading (or the end of the document), with the
risk tokens of each section wrapped. -/
def cardsOut : List (List Char) → List Char
  | [] => []
  | s :: rest => cardOpen ++ wrapRisk s ++ closeDiv ++ cardsOut rest

/-- Intermediate shape: the cards before risk-token wrapping. -/
def rawCards : List (List Char) → List Char
  | [] => []
  | s :: rest => cardOpen ++ s ++ closeDiv ++ rawCards rest

/-- Intermediate shape after the first replace: each section preceded by
the full replacement text. -/
def repJoined : List (List Char) → List Char
  | [] => []
  | s :: rest => cardRep ++ s ++ repJoined rest

/-- The sample Function record of the upload scenario of the spec. -/
def fn0 : Func := ⟨"parse", 12, 2, ⟨"high", "uses eval"⟩⟩

/-- A sample uploaded file. -/
def file0 : UploadedFile := ⟨"sample.py", "def parse(a, b):\n  return eval(a)\n"⟩

/-- A second sample file, uploaded over the first. -/
def file1 : UploadedFile := ⟨"other.py", "def g():\n  pass\n"⟩

/-- Base world: `sample.py` loaded, `parse` selected, empty cache. -/
def w0 : World :=
  { session := ⟨some file0, some fn0, fun _ => none⟩
    fileTreeHtml := ""
    fileNameDisplay := "sample.py"
    codeContent := ""
    analysisContent := .rawHtml ""
    geminiContent := promptHtml
    btnAskLabel := "Explain Function"
    btnAskDisabled := false
    geminiHidden := false }

/-- World before any upload: no file, no selection, empty cache. -/
def wNoFile : World :=
  { session := ⟨none, none, fun _ => none⟩
    fileTreeHtml := ""
    fileNameDisplay := ""
    codeContent := ""
    analysisContent := .rawHtml ""
    geminiContent := ""
    btnAskLabel := "Explain Function"
    btnAskDisabled := false
    geminiHidden := true }

/-- World whose cache holds the empty string for `parse` (a cached but
falsy explanation, as produced by a response `{explanation: ""}`). -/
def wEmptyCached : World :=
  { w0 with session := { w0.session with
      functionCache := fun k => if k = "parse" then some "" else none } }

/-- A Function record whose name is adversarial markup. -/
def injFunc : Func := ⟨"<img src=x onerror=alert(1)>", 3, 0, ⟨"low", "no risky calls"⟩⟩

/-- The two sections of the explanation scenario of the spec, produced by a
Markdown converter from
`### Purpose\nDoes X.\n### Risk\nHIGH risk due to eval.`:
each section is the heading text, its closing tag, and the paragraph that
follows, up to the next heading. -/
def specSections : List (List Char) :=
  ["Purpose</h3>\n<p>Does X.</p>\n".toList,
   "Risk</h3>\n<p>HIGH risk due to eval.</p>\n".toList]

/-- World whose cache holds a non-empty explanation for `parse`. -/
def wCached : World :=
  { w0 with session := { w0.session with
      functionCache := fun k => if k = "parse" then some "cached text" else none } }

theorem pref_of_append_of_le {p a b : List Char} (h : p <+: a ++ b)
    (hl : p.length ≤ a.length) : p <+: a := by
  have hp := List.prefix_iff_eq_take.mp h
  rw [List.take_append_of_le_length hl] at hp
  rw [hp]
  exact List.take_prefix _ _

theorem head_of_spanning {p a b : List Char} (h : p <+: a ++ b)
    (hl : a.length < p.length) : b.head? = (p.drop a.length).head? := by
  obtain ⟨r, hr⟩ := h
  have hb : b = p.drop a.length ++ r := by
    have h1 : b = (a ++ b).drop a.length := (List.drop_left a b).symm
    rw [h1, ← hr, List.drop_append_of_le_length (Nat.le_of_lt hl)]
  have hne : p.drop a.length ≠ [] := by
    intro hnil
    have hlen : (p.drop a.length).length = p.length - a.length := List.length_drop _ _
    rw [hnil] at hlen
    simp at hlen
    omega
  rw [hb, List.head?_append]
  cases hd : p.drop a.length with
  | nil => exact absurd hd hne
  | cons x xs => simp

theorem head_eq_of_pref {p l : List Char} {a : Char} {p' : List Char}
    (hp : p = a :: p') (h : p <+: l) : l.head? = some a := by
  obtain ⟨r, hr⟩ := h
  subst hp
  rw [← hr]
  simp

theorem replaceAll_nil (pat rep : List Char) : replaceAll pat rep [] = [] := by
  simp [replaceAll]

theorem replaceAll_cons_pos {pat : List Char} (rep : List Char) {c : Char} {rest : List Char}
    (h : pat.isPrefixOf (c :: rest) = true) (hne : pat ≠ []) :
    replaceAll pat rep (c :: rest) = rep ++ replaceAll pat rep (rest.drop (pat.length - 1)) := by
  have h2 : pat.isEmpty = false := by
    cases pat with
    | nil => exact absurd rfl hne
    | cons a t => rfl
  rw [replaceAll]
  simp [h, h2]

theorem replaceAll_cons_neg {pat : List Char} (rep : List Char) {c : Char} {rest : List Char}
    (h : pat.isPrefixOf (c :: rest) = false) :
    replaceAll pat rep (c :: rest) = c :: replaceAll pat rep rest := by
  rw [replaceAll]
  simp [h]

theorem h3Stem_pref : h3Stem <+: h3Tag := ⟨['>'], by decide⟩

theorem replA_head (s : List Char) :
    replaceAll h3Tag cardRep (h3Tag ++ s) = cardRep ++ replaceAll h3Tag cardRep s := by
  have he : h3Tag ++ s = '<' :: ('h' :: '3' :: '>' :: s) := rfl
  have h : h3Tag.isPrefixOf ('<' :: ('h' :: '3' :: '>' :: s)) = true := by
    rw [List.isPrefixOf_iff_prefix, ← he]
    exact List.prefix_append _ _
  rw [he, replaceAll_cons_pos _ h (by decide)]
  congr 1

theorem replA_copy (xs : List Char) : ∀ (ys : List Char), occursIn h3Stem xs = false →
    ys.head? = some '<' →
    replaceAll h3Tag cardRep (xs ++ ys) = xs ++ replaceAll h3Tag cardRep ys := by
  induction xs with
  | nil => intro ys _ _; simp
  | cons c t ih =>
    intro ys hocc hy
    have hocc' : h3Stem.isPrefixOf (c :: t) = false ∧ occursIn h3Stem t = false := by
      have h : (h3Stem.isPrefixOf (c :: t) || occursIn h3Stem t) = false := hocc
      exact Bool.or_eq_false_iff.mp h
    have hnp : h3Tag.isPrefixOf (c :: (t ++ ys)) = false := by
      cases hE : h3Tag.isPrefixOf (c :: (t ++ ys)) with
      | false => rfl
      | true =>
        exfalso
        have hb' : h3Tag <+: (c :: t) ++ ys := List.isPrefixOf_iff_prefix.mp hE
        rcases le_or_lt h3Tag.length (c :: t).length with hle | hlt
        · have h1 : h3Tag <+: (c :: t) := pref_of_append_of_le hb' hle
          have h2 : h3Stem <+: (c :: t) := h3Stem_pref.trans h1
          rw [← List.isPrefixOf_iff_prefix] at h2
          rw [hocc'.1] at h2
          exact Bool.false_ne_true h2
        · have hhead := head_of_spanning hb' hlt
          rw [hy] at hhead
          have h4 : h3Tag.length = 4 := rfl
          rw [h4] at hlt
          have hpos : 0 < (c :: t).length := by simp
          have hno : ∀ m, m < 4 → 0 < m → (h3Tag.drop m).head? ≠ some '<' := by decide
          exact hno _ hlt hpos hhead.symm
    rw [List.cons_append, replaceAll_cons_neg _ hnp, ih ys hocc'.2 hy, List.cons_append]

theorem replA_stop (xs : List Char) (hocc : occursIn h3Stem xs = false) :
    replaceAll h3Tag cardRep xs = xs := by
  induction xs with
  | nil => simp [replaceAll_nil]
  | cons c t ih =>
    have hocc' : h3Stem.isPrefixOf (c :: t) = false ∧ occursIn h3Stem t = false := by
      have h : (h3Stem.isPrefixOf (c :: t) || occursIn h3Stem t) = false := hocc
      exact Bool.or_eq_false_iff.mp h
    have hnp : h3Tag.isPrefixOf (c :: t) = false := by
      cases hE : h3Tag.isPrefixOf (c :: t) with
      | false => rfl
      | true =>
        exfalso
        have hb' : h3Tag <+: (c :: t) := List.isPrefixOf_iff_prefix.mp hE
        have h2 : h3Stem <+: (c :: t) := h3Stem_pref.trans hb'
        rw [← List.isPrefixOf_iff_prefix] at h2
        rw [hocc'.1] at h2
        exact Bool.false_ne_true h2
    rw [replaceAll_cons_neg _ hnp, ih hocc'.2]

theorem wrapRisk_nil : wrapRisk [] = [] := by
  simp [wrapRisk]

theorem wrapRisk_hi {c : Char} {rest : List Char} (h : hiTok.isPrefixOf (c :: rest) = true) :
    wrapRisk (c :: rest) = riskSpan hiTok ++ wrapRisk (rest.drop 3) := by
  rw [wrapRisk]
  simp [h]

theorem wrapRisk_me {c : Char} {rest : List Char} (h1 : hiTok.isPrefixOf (c :: rest) = false)
    (h2 : meTok.isPrefixOf (c :: rest) = true) :
    wrapRisk (c :: rest) = riskSpan meTok ++ wrapRisk (rest.drop 5) := by
  rw [wrapRisk]
  simp [h1, h2]

theorem wrapRisk_lo {c : Char} {rest : List Char} (h1 : hiTok.isPrefixOf (c :: rest) = false)
    (h2 : meTok.isPrefixOf (c :: rest) = false) (h3 : loTok.isPrefixOf (c :: rest) = true) :
    wrapRisk (c :: rest) = riskSpan loTok ++ wrapRisk (rest.drop 2) := by
  rw [wrapRisk]
  simp [h1, h2, h3]

theorem wrapRisk_skip {c : Char} {rest : List Char} (h1 : hiTok.isPrefixOf (c :: rest) = false)
    (h2 : meTok.isPrefixOf (c :: rest) = false) (h3 : loTok.isPrefixOf (c :: rest) = false) :
    wrapRisk (c :: rest) = c :: wrapRisk rest := by
  rw [wrapRisk]
  simp [h1, h2, h3]

theorem tok_ext {tok : List Char}
    (htok : tok = hiTok ∨ tok = meTok ∨ tok = loTok)
    (c : Char) (t ys : List Char) (hy : ys.head? = some '<') :
    tok.isPrefixOf ((c :: t) ++ ys) = tok.isPrefixOf (c :: t) := by
  cases hb : tok.isPrefixOf (c :: t) with
  | true =>
    have h1 : tok <+: (c :: t) := List.isPrefixOf_iff_prefix.mp hb
    have h2 : tok <+: (c :: t) ++ ys := h1.trans (List.prefix_append _ _)
    rw [← List.isPrefixOf_iff_prefix] at h2
    exact h2
  | false =>
    cases hE : tok.isPrefixOf ((c :: t) ++ ys) with
    | false => rfl
    | true =>
      exfalso
      have hb' : tok <+: (c :: t) ++ ys := List.isPrefixOf_iff_prefix.mp hE
      rcases le_or_lt tok.length (c :: t).length with hle | hlt
      · have h1 : tok <+: (c :: t) := pref_of_append_of_le hb' hle
        rw [← List.isPrefixOf_iff_prefix] at h1
        rw [hb] at h1
        exact Bool.false_ne_true h1
      · have hhead := head_of_spanning hb' hlt
        rw [hy] at hhead
        have hpos : 0 < (c :: t).length := by simp
        rcases htok with h | h | h <;> subst h
        · have hno : ∀ m, m < hiTok.length → 0 < m → (hiTok.drop m).head? ≠ some '<' := by decide
          exact hno _ hlt hpos hhead.symm
        · have hno : ∀ m, m < meTok.length → 0 < m → (meTok.drop m).head? ≠ some '<' := by decide
          exact hno _ hlt hpos hhead.symm
        · have hno : ∀ m, m < loTok.length → 0 < m → (loTok.drop m).head? ≠ some '<' := by decide
          exact hno _ hlt hpos hhead.symm

theorem wrap_split_aux : ∀ (n : Nat) (xs ys : List Char), xs.length ≤ n →
    ys.head? = some '<' → wrapRisk (xs ++ ys) = wrapRisk xs ++ wrapRisk ys := by
  intro n
  induction n with
  | zero =>
    intro xs ys hlen hy
    have hnil : xs = [] := List.length_eq_zero.mp (Nat.le_zero.mp hlen)
    subst hnil
    simp [wrapRisk_nil]
  | succ n ih =>
    intro xs ys hlen hy
    match xs with
    | [] => simp [wrapRisk_nil]
    | c :: t =>
      have hlt : t.length ≤ n := by
        rw [List.length_cons] at hlen
        omega
      have eh := tok_ext (Or.inl rfl) c t ys hy
      have em := tok_ext (Or.inr (Or.inl rfl)) c t ys hy
      have el := tok_ext (Or.inr (Or.inr rfl)) c t ys hy
      rw [List.cons_append] at eh em el
      cases hH : hiTok.isPrefixOf (c :: t) with
      | true =>
        have hlen4 : hiTok.length ≤ (c :: t).length :=
          (List.isPrefixOf_iff_prefix.mp hH).length_le
        have h4 : hiTok.length = 4 := rfl
        rw [h4, List.length_cons] at hlen4
        have h3t : 3 ≤ t.length := by omega
        have hHe : hiTok.isPrefixOf (c :: (t ++ ys)) = true := by rw [eh]; exact hH
        rw [List.cons_append, wrapRisk_hi hHe, wrapRisk_hi hH,
          List.drop_append_of_le_length h3t,
          ih (t.drop 3) ys (by rw [List.length_drop]; omega) hy,
          List.append_assoc]
      | false =>
        have hHe : hiTok.isPrefixOf (c :: (t ++ ys)) = false := by rw [eh]; exact hH
        cases hM : meTok.isPrefixOf (c :: t) with
        | true =>
          have hlen6 : meTok.length ≤ (c :: t).length :=
            (List.isPrefixOf_iff_prefix.mp hM).length_le
          have h6 : meTok.length = 6 := rfl
          rw [h6, List.length_cons] at hlen6
          have h5t : 5 ≤ t.length := by omega
          have hMe : meTok.isPrefixOf (c :: (t ++ ys)) = true := by rw [em]; exact hM
          rw [List.cons_append, wrapRisk_me hHe hMe, wrapRisk_me hH hM,
            List.drop_append_of_le_length h5t,
            ih (t.drop 5) ys (by rw [List.length_drop]; omega) hy,
            List.append_assoc]
        | false =>
          have hMe : meTok.isPrefixOf (c :: (t ++ ys)) = false := by rw [em]; exact hM
          cases hL : loTok.isPrefixOf (c :: t) with
          | true =>
            have hlen3 : loTok.length ≤ (c :: t).length :=
              (List.isPrefixOf_iff_prefix.mp hL).length_le
            have h3 : loTok.length = 3 := rfl
            rw [h3, List.length_cons] at hlen3
            have h2t : 2 ≤ t.length := by omega
            have hLe : loTok.isPrefixOf (c :: (t ++ ys)) = true := by rw [el]; exact hL
            rw [List.cons_append, wrapRisk_lo hHe hMe hLe, wrapRisk_lo hH hM hL,
              List.drop_append_of_le_length h2t,
              ih (t.drop 2) ys (by rw [List.length_drop]; omega) hy,
              List.append_assoc]
          | false =>
            have hLe : loTok.isPrefixOf (c :: (t ++ ys)) = false := by rw [el]; exact hL
            rw [List.cons_append, wrapRisk_skip hHe hMe hLe, wrapRisk_skip hH hM hL,
              ih t ys hlt hy, List.cons_append]

theorem wrap_split (xs ys : List Char) (hy : ys.head? = some '<') :
    wrapRisk (xs ++ ys) = wrapRisk xs ++ wrapRisk ys :=
  wrap_split_aux xs.length xs ys (Nat.le_refl _) hy

theorem wrap_copy (xs ys : List Char) (hH : 'H' ∉ xs) (hM : 'M' ∉ xs) (hL : 'L' ∉ xs) :
    wrapRisk (xs ++ ys) = xs ++ wrapRisk ys := by
  induction xs with
  | nil => simp
  | cons c t ih =>
    have hH' : 'H' ≠ c ∧ 'H' ∉ t := by
      constructor
      · intro h; exact hH (h ▸ List.mem_cons_self c t)
      · intro h; exact hH (List.mem_cons_of_mem c h)
    have hM' : 'M' ≠ c ∧ 'M' ∉ t := by
      constructor
      · intro h; exact hM (h ▸ List.mem_cons_self c t)
      · intro h; exact hM (List.mem_cons_of_mem c h)
    have hL' : 'L' ≠ c ∧ 'L' ∉ t := by
      constructor
      · intro h; exact hL (h ▸ List.mem_cons_self c t)
      · intro h; exact hL (List.mem_cons_of_mem c h)
    have h1 : hiTok.isPrefixOf (c :: (t ++ ys)) = false := by
      cases hE : hiTok.isPrefixOf (c :: (t ++ ys)) with
      | false => rfl
      | true =>
        exfalso
        have hp : (c :: (t ++ ys)).head? = some 'H' :=
          head_eq_of_pref rfl (List.isPrefixOf_iff_prefix.mp hE)
        simp at hp
        exact hH'.1 hp.symm
    have h2 : meTok.isPrefixOf (c :: (t ++ ys)) = false := by
      cases hE : meTok.isPrefixOf (c :: (t ++ ys)) with
      | false => rfl
      | true =>
        exfalso
        have hp : (c :: (t ++ ys)).head? = some 'M' :=
          head_eq_of_pref rfl (List.isPrefixOf_iff_prefix.mp hE)
        simp at hp
        exact hM'.1 hp.symm
    have h3 : loTok.isPrefixOf (c :: (t ++ ys)) = false := by
      cases hE : loTok.isPrefixOf (c :: (t ++ ys)) with
      | false => rfl
      | true =>
        exfalso
        have hp : (c :: (t ++ ys)).head? = some 'L' :=
          head_eq_of_pref rfl (List.isPrefixOf_iff_prefix.mp hE)
        simp at hp
        exact hL'.1 hp.symm
    rw [List.cons_append, wrapRisk_skip h1 h2 h3, ih hH'.2 hM'.2 hL'.2, List.cons_append]

theorem repJoined_replace (ss : List (List Char))
    (hs : ∀ s ∈ ss, occursIn h3Stem s = false) :
    replaceAll h3Tag cardRep (joinSections ss) = repJoined ss := by
  induction ss with
  | nil => simp [joinSections, repJoined, replaceAll_nil]
  | cons s rest ih =>
    rw [joinSections, repJoined, List.append_assoc, replA_head]
    cases rest with
    | nil =>
      rw [show joinSections [] = [] from rfl, List.append_nil,
        replA_stop s (hs s (by simp)), show repJoined [] = [] from rfl, List.append_nil]
    | cons s2 r2 =>
      have hy : (joinSections (s2 :: r2)).head? = some '<' := rfl
      rw [replA_copy s _ (hs s (by simp)) hy,
        ih (fun x hx => hs x (List.mem_cons_of_mem s hx)), List.append_assoc]

theorem repJoined_closeDiv (ss : List (List Char)) :
    repJoined ss ++ closeDiv = closeDiv ++ rawCards ss := by
  induction ss with
  | nil => simp [repJoined, rawCards]
  | cons s rest ih =>
    rw [repJoined, rawCards, show cardRep = closeDiv ++ cardOpen from by decide]
    simp only [List.append_assoc]
    rw [ih]

theorem wrap_rawCards (ss : List (List Char)) :
    wrapRisk (rawCards ss) = cardsOut ss := by
  induction ss with
  | nil => simp [rawCards, cardsOut, wrapRisk_nil]
  | cons s rest ih =>
    rw [rawCards, cardsOut]
    simp only [List.append_assoc]
    rw [wrap_copy cardOpen _ (by decide) (by decide) (by decide)]
    cases hrc : rawCards rest with
    | nil =>
      rw [wrap_split s (closeDiv ++ []) (by rfl)]
      rw [wrap_copy closeDiv [] (by decide) (by decide) (by decide)]
      rw [← hrc, ih]
    | cons x xs =>
      rw [wrap_split s (closeDiv ++ (x :: xs)) (by rfl)]
      rw [wrap_copy closeDiv (x :: xs) (by decide) (by decide) (by decide)]
      rw [← hrc, ih]

/-- C4.  For every converter output that consists of level-3-heading
sections (each section free of a further `<h3` stem), the post-processing
step of `fetchExplanation` produces exactly the concatenation of one
`expl-card` block per heading — each block groups the heading with all
content up to the next heading or the end of the document — with every
occurrence of the literal tokens HIGH, MEDIUM, LOW wrapped in a
`risk-text` span (`wrapRisk` is the left-to-right wrapping scan of the
risk-token replace). -/
theorem postProcess_sections (ss : List (List Char)) (hne : ss ≠ [])
    (hs : ∀ s ∈ ss, occursIn h3Stem s = false) :
    postProcessExplanation (joinSections ss) = cardsOut ss := by
  cases ss with
  | nil => exact absurd rfl hne
  | cons s rest =>
    have hsplit : repJoined (s :: rest) = closeDiv ++ (cardOpen ++ (s ++ repJoined rest)) := by
      rw [repJoined, show cardRep = closeDiv ++ cardOpen from by decide]
      simp only [List.append_assoc]
    have hR : cardOpen ++ (s ++ (repJoined rest ++ closeDiv)) = rawCards (s :: rest) := by
      have h2 := repJoined_closeDiv (s :: rest)
      rw [hsplit] at h2
      simp only [List.append_assoc] at h2
      exact List.append_cancel_left h2
    have hpre : closeDiv.isPrefixOf (closeDiv ++ (cardOpen ++ (s ++ repJoined rest))) = true := by
      rw [List.isPrefixOf_iff_prefix]
      exact List.prefix_append _ _
    simp only [postProcessExplanation]
    rw [repJoined_replace _ hs, hsplit, hpre]
    simp only [if_true]
    rw [List.drop_left' (show closeDiv.length = 6 by decide)]
    rw [← wrap_rawCards (s :: rest), ← hR]
    simp only [List.append_assoc]

theorem foldl_append_items (fs : List Func) (acc : List FuncItem) :
    fs.foldl (fun a f => a ++ [mkFuncItem f]) acc = acc ++ fs.map mkFuncItem := by
  induction fs generalizing acc with
  | nil => simp
  | cons f t ih => simp [List.foldl_cons, ih]

/-- C7.  For every analysis response with N Function records, the renderer
produces exactly N selectable entries, the i-th carrying the i-th input
record (the appended children are the map of `mkFuncItem` over the input,
so input order is preserved). -/
theorem renderAnalysis_entries (fs : List Func) :
    selectableEntries (renderAnalysis (some fs)) = fs.map mkFuncItem ∧
    (selectableEntries (renderAnalysis (some fs))).length = fs.length := by
  have h : selectableEntries (renderAnalysis (some fs)) = fs.map mkFuncItem := by
    cases fs with
    | nil => rfl
    | cons f t =>
      simp only [renderAnalysis, List.length_cons]
      rw [if_neg (by omega)]
      rw [selectableEntries, foldl_append_items]
      simp
  exact ⟨h, by rw [h, List.length_map]⟩

/-- C8.  An analysis response whose function list is empty renders the
designated empty-state markup, which is distinct from every possible
error-state markup of the upload path. -/
theorem renderAnalysis_empty_state :
    renderAnalysis (some []) = .rawHtml noFunctionsHtml ∧
    (∀ msg, noFunctionsHtml ≠ analysisErrorHtml msg) := by
  constructor
  · rfl
  · intro msg h
    have hlen := congrArg String.length h
    simp only [analysisErrorHtml, String.length_append] at hlen
    rw [show noFunctionsHtml.length = 50 from by decide] at hlen
    rw [show ("<div class=\"empty-state\" style=\"color:#ff8f8f\">Error: " : String).length = 54
      from by decide] at hlen
    rw [show ("</div>" : String).length = 6 from by decide] at hlen
    omega

/-- C2 (code defect).  A Function record whose name is markup is
interpolated verbatim into the item `innerHTML` (line 77 of `app.js`,
no escaping), so the adversarial name occurs raw in the rendered markup
and the browser parses it as an element rather than as literal text. -/
theorem renderAnalysis_injects_markup :
    renderAnalysis (some [injFunc]) = .items [⟨funcItemHtml injFunc, injFunc⟩] ∧
    occursIn "<img src=x onerror=alert(1)>".toList (funcItemHtml injFunc).toList = true := by
  exact ⟨rfl, by decide⟩

/-- C3 (amended).  On every upload the current file of the Session is replaced
and the explanation cache is reset to the empty mapping, but the
selected-function state is left exactly as it was: `handleFileUpload`
never writes `currentSelection`. -/
theorem handleFileUpload_resets_session (w : World) (file : UploadedFile) (o : AnalyzeOutcome) :
    (handleFileUpload w file o).1.session.currentFile = some file ∧
    (∀ k, (handleFileUpload w file o).1.session.functionCache k = none) ∧
    (handleFileUpload w file o).1.session.currentSelection = w.session.currentSelection := by
  cases o with
  | networkError msg => exact ⟨rfl, fun _ => rfl, rfl⟩
  | response st body =>
    cases hok : okStatus st with
    | false =>
      simp only [handleFileUpload, hok]
      exact ⟨rfl, fun _ => rfl, rfl⟩
    | true =>
      cases body with
      | malformed msg =>
        simp only [handleFileUpload, hok]
        exact ⟨rfl, fun _ => rfl, rfl⟩
      | parsed fns src =>
        simp only [handleFileUpload, hok]
        exact ⟨rfl, fun _ => rfl, rfl⟩

/-- C3 counterexample.  With `parse` selected, uploading a new file leaves
the selection in place: afterwards a function is still selected,
contradicting the claim that no function is selected after an upload. -/
theorem handleFileUpload_keeps_selection_counterexample :
    (handleFileUpload w0 file1 (.networkError "Failed to fetch")).1.session.currentSelection
        = some fn0 ∧
    (handleFileUpload w0 file1 (.networkError "Failed to fetch")).1.session.currentSelection
        ≠ none := by
  exact ⟨rfl, by decide⟩

/-- C5 (amended).  Selecting a function records the selection and issues no
network call; if the cache holds a non-empty (truthy) explanation for the
name, that text is rendered through the converter with the re-fetch label,
otherwise — including a cached empty string — the prompt is rendered with
the first-request label. -/
theorem selectFunction_cache_behavior (md : String → String) (w : World) (f : Func) :
    (selectFunction md w f).2 = [] ∧
    (selectFunction md w f).1.session.currentSelection = some f ∧
    (∀ s, cacheHit w.session.functionCache f.name = some s →
      (selectFunction md w f).1.geminiContent = md s ∧
      (selectFunction md w f).1.btnAskLabel = "Explain Again") ∧
    (cacheHit w.session.functionCache f.name = none →
      (selectFunction md w f).1.geminiContent = promptHtml ∧
      (selectFunction md w f).1.btnAskLabel = "Explain Function") := by
  cases hc : cacheHit w.session.functionCache f.name with
  | some s0 =>
    refine ⟨by simp [selectFunction, hc], by simp [selectFunction, hc], ?_, ?_⟩
    · intro s hs
      cases hs
      constructor <;> simp [selectFunction, hc]
    · intro h0
      cases h0
  | none =>
    refine ⟨by simp [selectFunction, hc], by simp [selectFunction, hc], ?_, ?_⟩
    · intro s hs
      cases hs
    · intro _
      constructor <;> simp [selectFunction, hc]

/-- Witness for C5: with `cached text` cached for `parse`, selecting
`parse` renders the cached text and issues no network call. -/
theorem selectFunction_cache_behavior_witness :
    (selectFunction id wCached fn0).2 = [] ∧
    (selectFunction id wCached fn0).1.geminiContent = id "cached text" := by
  have h := selectFunction_cache_behavior id wCached fn0
  exact ⟨h.1, (h.2.2.1 "cached text" rfl).1⟩

/-- C5 counterexample.  A cached explanation that is the empty string is a
cache entry, yet selection renders the prompt, not the cached text: JS
truthiness treats the empty string as a miss (line 101 of `app.js`). -/
theorem selectFunction_empty_cached_counterexample :
    wEmptyCached.session.functionCache fn0.name = some "" ∧
    (selectFunction id wEmptyCached fn0).1.geminiContent = promptHtml ∧
    (selectFunction id wEmptyCached fn0).1.geminiContent ≠ id "" := by
  refine ⟨rfl, rfl, ?_⟩
  decide

/-- C9.  Requesting an explanation with no loaded file or no selection is a
complete no-op: the world is unchanged and no network request is issued
(the guard of line 112 of `app.js` returns before any effect). -/
theorem fetchExplanation_noop (md : String → String) (w : World) (o : ExplainOutcome)
    (h : w.session.currentFile = none ∨ w.session.currentSelection = none) :
    fetchExplanation md w o = (w, []) := by
  rcases h with h | h
  · simp [fetchExplanation, h]
  · cases hf : w.session.currentFile with
    | none => simp [fetchExplanation, hf]
    | some f => simp [fetchExplanation, hf, h]

/-- Witness for C9: with no file loaded, the operation returns the world
unchanged and an empty request list. -/
theorem fetchExplanation_noop_witness :
    (wNoFile.session.currentFile = none ∨ wNoFile.session.currentSelection = none) ∧
    fetchExplanation id wNoFile .networkError = (wNoFile, []) :=
  ⟨Or.inl rfl, fetchExplanation_noop id wNoFile .networkError (Or.inl rfl)⟩

/-- C10.  With a file loaded and a function selected, one explain
invocation never changes the current file, the current selection, or any
cache entry other than the name of the selected function, on the success path
and on every failure path. -/
theorem fetchExplanation_frame (md : String → String) (w : World)
    (file : UploadedFile) (sel : Func) (o : ExplainOutcome)
    (hf : w.session.currentFile = some file) (hs : w.session.currentSelection = some sel) :
    (fetchExplanation md w o).1.session.currentFile = w.session.currentFile ∧
    (fetchExplanation md w o).1.session.currentSelection = w.session.currentSelection ∧
    ∀ k, k ≠ sel.name →
      (fetchExplanation md w o).1.session.functionCache k = w.session.functionCache k := by
  cases o with
  | networkError => simp [fetchExplanation, hf, hs]
  | response st body =>
    cases body with
    | malformed => simp [fetchExplanation, hf, hs]
    | parsed expl =>
      cases expl with
      | some t =>
        refine ⟨by simp [fetchExplanation, hf, hs], by simp [fetchExplanation, hf, hs], ?_⟩
        intro k hk
        simp [fetchExplanation, hf, hs, hk]
      | none =>
        refine ⟨by simp [fetchExplanation, hf, hs], by simp [fetchExplanation, hf, hs], ?_⟩
        intro k hk
        simp [fetchExplanation, hf, hs, hk]

/-- Witness for C10: an explain failure leaves an unrelated cache key
untouched. -/
theorem fetchExplanation_frame_witness :
    w0.session.currentFile = some file0 ∧
    (fetchExplanation id w0 .networkError).1.session.functionCache "other"
      = w0.session.functionCache "other" := by
  refine ⟨rfl, ?_⟩
  exact (fetchExplanation_frame id w0 file0 fn0 .networkError rfl rfl).2.2 "other" (by decide)

/-- C6.  Invoking explain twice for the same selected function issues one
network request per invocation — the second consults no cache, the request
is unconditional — and afterwards the cache entry for the name holds the
explanation text of the second response, overwriting the first. -/
theorem fetchExplanation_twice (md : String → String) (w : World)
    (file : UploadedFile) (sel : Func) (st1 st2 : Nat) (t1 t2 : String)
    (hf : w.session.currentFile = some file) (hs : w.session.currentSelection = some sel) :
    (fetchExplanation md w (.response st1 (.parsed (some t1)))).2
        = [NetworkCall.explain sel.name file] ∧
    (fetchExplanation md (fetchExplanation md w (.response st1 (.parsed (some t1)))).1
        (.response st2 (.parsed (some t2)))).2 = [NetworkCall.explain sel.name file] ∧
    (fetchExplanation md (fetchExplanation md w (.response st1 (.parsed (some t1)))).1
        (.response st2 (.parsed (some t2)))).1.session.functionCache sel.name = some t2 := by
  have h1 : (fetchExplanation md w (.response st1 (.parsed (some t1)))).1.session.currentFile
      = some file := by
    simp [fetchExplanation, hf, hs]
  have h2 : (fetchExplanation md w (.response st1 (.parsed (some t1)))).1.session.currentSelection
      = some sel := by
    simp [fetchExplanation, hf, hs]
  refine ⟨by simp [fetchExplanation, hf, hs], ?_, ?_⟩
  · rw [fetchExplanation]
    simp [h1, h2]
  · rw [fetchExplanation]
    simp [h1, h2]

/-- Witness for C6: two explains for `parse` over `sample.py`, answering
`first` then `second`, leave `second` in the cache. -/
theorem fetchExplanation_twice_witness :
    (fetchExplanation id (fetchExplanation id w0 (.response 200 (.parsed (some "first")))).1
        (.response 200 (.parsed (some "second")))).1.session.functionCache "parse"
      = some "second" :=
  (fetchExplanation_twice id w0 file0 fn0 200 200 "first" "second" rfl rfl).2.2

/-- C1 (amended).  With a file and a selection, the error path of the
explanation panel (inline error markup, label `Try Again`, control
re-enabled) is taken exactly when the fetch throws, the body is not JSON,
or the parsed body lacks an explanation string — never based on the HTTP
status, which the code does not consult: every response whose JSON body
carries an explanation string, non-200 included, takes the success path,
storing the text in the cache and rendering it with label
`Explain Again`. -/
theorem fetchExplanation_ignores_status (md : String → String) (w : World)
    (file : UploadedFile) (sel : Func)
    (hf : w.session.currentFile = some file) (hs : w.session.currentSelection = some sel) :
    ((fetchExplanation md w .networkError).1.geminiContent = explainErrorHtml ∧
      (fetchExplanation md w .networkError).1.btnAskLabel = "Try Again" ∧
      (fetchExplanation md w .networkError).1.btnAskDisabled = false ∧
      (fetchExplanation md w .networkError).1.session = w.session) ∧
    (∀ st, (fetchExplanation md w (.response st .malformed)).1.geminiContent = explainErrorHtml ∧
      (fetchExplanation md w (.response st .malformed)).1.btnAskLabel = "Try Again" ∧
      (fetchExplanation md w (.response st .malformed)).1.session = w.session) ∧
    (∀ st, (fetchExplanation md w (.response st (.parsed none))).1.geminiContent
        = explainErrorHtml ∧
      (fetchExplanation md w (.response st (.parsed none))).1.btnAskLabel = "Try Again" ∧
      (fetchExplanation md w (.response st (.parsed none))).1.session.functionCache sel.name
        = none) ∧
    (∀ st t, (fetchExplanation md w (.response st (.parsed (some t)))).1.geminiContent
        = postProcessStr (md t) ∧
      (fetchExplanation md w (.response st (.parsed (some t)))).1.btnAskLabel = "Explain Again" ∧
      (fetchExplanation md w (.response st (.parsed (some t)))).1.session.functionCache sel.name
        = some t ∧
      (fetchExplanation md w (.response st (.parsed (some t)))).2
        = [NetworkCall.explain sel.name file]) := by
  refine ⟨⟨?_, ?_, ?_, ?_⟩, fun st => ⟨?_, ?_, ?_⟩, fun st => ⟨?_, ?_, ?_⟩,
    fun st t => ⟨?_, ?_, ?_, ?_⟩⟩ <;> simp [fetchExplanation, hf, hs]

/-- Witness for C1: over `sample.py` with `parse` selected, a 404 response
with a JSON explanation body takes the success path, a network error the
error path. -/
theorem fetchExplanation_ignores_status_witness :
    (fetchExplanation id w0 (.response 404 (.parsed (some "text")))).1.btnAskLabel
        = "Explain Again" ∧
    (fetchExplanation id w0 .networkError).1.btnAskLabel = "Try Again" := by
  have h := fetchExplanation_ignores_status id w0 file0 fn0 rfl rfl
  exact ⟨(h.2.2.2 404 "text").2.1, h.1.2.1⟩

/-- C1 counterexample.  A response with HTTP status 500 whose body parses
to an explanation string does not take the error path: the text is stored
in the Session cache and the control shows the success label, refuting
that every non-200 response takes the error path without caching. -/
theorem fetchExplanation_non200_counterexample :
    (fetchExplanation id w0 (.response 500 (.parsed (some "oops")))).1.session.functionCache
        "parse" = some "oops" ∧
    (fetchExplanation id w0 (.response 500 (.parsed (some "oops")))).1.btnAskLabel
        = "Explain Again" := by
  exact ⟨rfl, rfl⟩

/-- Witness for C4: the two sections produced by the converter for the
explanation scenario of the spec satisfy the hypotheses, so the post-processed
output is exactly the two `expl-card` blocks with the risk tokens
wrapped. -/
theorem postProcess_sections_witness :
    specSections ≠ [] ∧ (∀ s ∈ specSections, occursIn h3Stem s = false) ∧
    postProcessExplanation (joinSections specSections) = cardsOut specSections :=
  ⟨by decide, by decide, postProcess_sections specSections (by decide) (by decide)⟩
